import Mathlib

/-!
Verification development for the node-traffic-logger HTTP traffic archiver.

The definitions below are a shallow embedding of the JavaScript sources:
`chunked-decoder.cjs` (decodeChunkedResponse, isChunkedResponse),
`har-logger.cjs` (decompressResponseBody, logRequest, logResponse),
`har-formatter.cjs` (HarFormatter.addRequest / addResponse),
`sse-decoder.cjs` (parseSSEStream, processEvent) and
`json-formatter.cjs` (formatJson, limitObjectDepth).

Buffers/strings are modelled as `List Char` (the inputs of interest are
single-byte text, where `Buffer` positions and JS string positions agree);
JS numbers that can be `NaN` are modelled as `Option Int` with `none = NaN`.
-/

namespace TrafficLogger

/-- JS whitespace characters relevant to `String.prototype.trim` on the
ASCII inputs handled here. -/
def isJsWS (c : Char) : Bool :=
  c = ' ' || c = '\t' || c = '\n' || c = '\r' || c = '\x0b' || c = '\x0c'

/-- Model of `String.prototype.trim`. -/
def trimWS (s : List Char) : List Char :=
  ((s.dropWhile isJsWS).reverse.dropWhile isJsWS).reverse

/-- Whether `pre` is a prefix of `s` (character-exact). -/
def listPrefix : List Char → List Char → Bool
  | [], _ => true
  | _ :: _, [] => false
  | a :: as, b :: bs => a = b && listPrefix as bs

/-- Model of `String.prototype.includes(pat)`: `pat` occurs as a contiguous
substring of `s`. -/
def hasSubstr (s pat : List Char) : Bool :=
  if listPrefix pat s then true
  else
    match s with
    | [] => false
    | _ :: rest => hasSubstr rest pat

/-- The slice of `buf` from index `a` (inclusive) to `b` (exclusive). -/
def sublist (buf : List Char) (a b : Nat) : List Char :=
  (buf.take b).drop a

/-- Model of `text.indexOf(String.fromCharCode c, i)` restricted to a
single-character needle: the least index `≥ i` holding `c`. -/
def indexOfCharFrom (buf : List Char) (c : Char) (i : Nat) : Option Nat :=
  match buf with
  | [] => none
  | a :: rest => if i = 0 then
      if a = c then some 0
      else (indexOfCharFrom rest c 0).map (· + 1)
    else (indexOfCharFrom rest c (i - 1)).map (· + 1)

/-- Model of `text.indexOf('\r\n', start)`: absolute index of the first CRLF
at or after `start`. -/
def findCRLFAux : List Char → Nat → Option Nat
  | [], _ => none
  | '\r' :: '\n' :: _, i => some i
  | _ :: rest, i => findCRLFAux rest (i + 1)

/-- Search for CRLF starting from absolute position `start` (negative JS
positions are clamped to 0 by the caller via `Int.toNat`). -/
def findCRLF (buf : List Char) (start : Nat) : Option Nat :=
  findCRLFAux (buf.drop start) start

/-- Model of `text.indexOf('\r\n\r\n', start)`. -/
def findCRLF2Aux : List Char → Nat → Option Nat
  | [], _ => none
  | '\r' :: '\n' :: '\r' :: '\n' :: _, i => some i
  | _ :: rest, i => findCRLF2Aux rest (i + 1)

/-- Absolute index of the first `\r\n\r\n` at or after `start`. -/
def findCRLF2 (buf : List Char) (start : Nat) : Option Nat :=
  findCRLF2Aux (buf.drop start) start

/-- Split a character list on every CRLF occurrence
(model of `text.split('\r\n')`). -/
def splitCRLF : List Char → List (List Char)
  | [] => [[]]
  | '\r' :: '\n' :: rest => [] :: splitCRLF rest
  | c :: rest =>
    match splitCRLF rest with
    | [] => [[c]]
    | h :: t => (c :: h) :: t

/-- Hexadecimal digit value, per the digits accepted by `parseInt(_, 16)`. -/
def hexVal? (c : Char) : Option Nat :=
  if '0' ≤ c ∧ c ≤ '9' then some (c.toNat - '0'.toNat)
  else if 'a' ≤ c ∧ c ≤ 'f' then some (c.toNat - 'a'.toNat + 10)
  else if 'A' ≤ c ∧ c ≤ 'F' then some (c.toNat - 'A'.toNat + 10)
  else none

/-- Whether `c` is a hexadecimal digit. -/
def isHexDigit (c : Char) : Bool :=
  (hexVal? c).isSome

/-- Accumulate the value of a run of hex digits. -/
def hexDigitsVal (ds : List Char) : Nat :=
  ds.foldl (fun acc c => 16 * acc + ((hexVal? c).getD 0)) 0

/-- Model of `parseInt(s, 16)`: skip leading whitespace, an optional sign and
an optional `0x`/`0X` prefix, then read the maximal run of hex digits;
`none` models the `NaN` result when that run is empty. -/
def parseIntHex (s : List Char) : Option Int :=
  let t := s.dropWhile isJsWS
  let (sgn, rest) :=
    match t with
    | '-' :: r => ((-1 : Int), r)
    | '+' :: r => ((1 : Int), r)
    | r => ((1 : Int), r)
  let rest2 :=
    match rest with
    | '0' :: 'x' :: r => r
    | '0' :: 'X' :: r => r
    | r => r
  let digits := rest2.takeWhile isHexDigit
  if digits.isEmpty then none
  else some (sgn * (hexDigitsVal digits : Int))

/-- Model of `Buffer.prototype.slice(start, end)` with a possibly negative
(or over-long) `end`: negative ends count from the end of the buffer, and an
empty slice results when the clamped start is not below the clamped end. -/
def bufSlice (buf : List Char) (start : Nat) (endI : Int) : List Char :=
  let len : Int := buf.length
  let e : Int := if endI < 0 then max (len + endI) 0 else min endI len
  let s := min start buf.length
  if (s : Int) < e then sublist buf s e.toNat else []

/-- One decoded chunk record, mirroring the `chunkMeta` object built by
`decodeChunkedResponse`: `size` and `endOffset` are `none` when the JS value
is `NaN`, and `offset` is an `Int` because JS positions can go negative via
negative parsed sizes. -/
structure ChunkMeta where
  offset : Int
  sizeHex : List Char
  size : Option Int
  dataOffset : Nat
  data : List Char
  endOffset : Option Int
deriving Repr, DecidableEq

/-- The result object of `decodeChunkedResponse`. -/
structure DecodeResult where
  body : List Char
  trailers : List (List Char × List Char)
  chunks : List ChunkMeta
deriving Repr, DecidableEq

/-- Model of object-property assignment for the `trailers` object: a later
assignment to an existing name overwrites it. -/
def objSet (m : List (List Char × List Char)) (k v : List Char) :
    List (List Char × List Char) :=
  if m.any (fun p => p.1 = k) then
    m.map (fun p => if p.1 = k then (k, v) else p)
  else m ++ [(k, v)]

/-- Trailer parsing performed in the terminating-chunk branch of
`decodeChunkedResponse`: text between the terminator and the first blank line
is split into `name: value` lines. -/
def parseTrailers (buf : List Char) (pos : Nat) :
    List (List Char × List Char) :=
  match findCRLF2 buf pos with
  | none => []
  | some tEnd =>
    if pos < tEnd then
      let text := sublist buf pos tEnd
      let lines := (splitCRLF text).filter (fun l => ¬ (trimWS l).isEmpty)
      lines.foldl
        (fun acc line =>
          match indexOfCharFrom line ':' 0 with
          | some colonPos =>
            if 0 < colonPos then
              objSet acc (trimWS (line.take colonPos))
                (trimWS (line.drop (colonPos + 1)))
            else acc
          | none => acc)
        []
    else []

/-- The chunk-size hex field extracted from the size line starting at `pos`
and ending at `crlfPos`: any `;extension` suffix is discarded and the result
trimmed, exactly as in the source. -/
def chunkSizeHexAt (buf : List Char) (pos : Int) (crlfPos : Nat) : List Char :=
  let line := sublist buf pos.toNat crlfPos
  match indexOfCharFrom line ';' 0 with
  | some i => trimWS (line.take i)
  | none => trimWS line

/-- The decode loop of `decodeChunkedResponse`. `fuel` bounds the number of
iterations (a `none` result models a run that does not terminate within the
bound; for ordinary inputs the position strictly increases each iteration, so
`length + 1` iterations always suffice). In the `NaN`-size branch the source
computes `chunkEndPos = NaN`, the overrun guard compares false, the data
slice `slice(pos, NaN)` is empty, and the next position is `NaN`, so the loop
exits right after pushing the chunk record — modelled by returning directly. -/
def decodeLoop (buf : List Char) :
    Nat → Int → List Char → List ChunkMeta → Option (Except String DecodeResult)
  | 0, _, _, _ => none
  | fuel + 1, pos, body, chunks =>
    if pos < (buf.length : Int) then
      match findCRLF buf pos.toNat with
      | none =>
        some (Except.error "Invalid chunked encoding: missing chunk size delimiter")
      | some crlfPos =>
        match parseIntHex (chunkSizeHexAt buf pos crlfPos) with
        | none =>
          some (Except.ok
            ⟨body, [],
              chunks ++
                [⟨pos, chunkSizeHexAt buf pos crlfPos, none, crlfPos + 2, [], none⟩]⟩)
        | some n =>
          if n = 0 then
            some (Except.ok
              ⟨body, parseTrailers buf (crlfPos + 2),
                chunks ++
                  [⟨pos, chunkSizeHexAt buf pos crlfPos, some 0, crlfPos + 2, [],
                    some ((crlfPos + 2 : Nat) : Int)⟩]⟩)
          else
            if ((crlfPos + 2 : Nat) : Int) + n + 2 > (buf.length : Int) then
              some (Except.error "Invalid chunked encoding: incomplete chunk data")
            else
              decodeLoop buf fuel (((crlfPos + 2 : Nat) : Int) + n + 2)
                (body ++ bufSlice buf (crlfPos + 2) (((crlfPos + 2 : Nat) : Int) + n))
                (chunks ++
                  [⟨pos, chunkSizeHexAt buf pos crlfPos, some n, crlfPos + 2,
                    bufSlice buf (crlfPos + 2) (((crlfPos + 2 : Nat) : Int) + n),
                    some (((crlfPos + 2 : Nat) : Int) + n + 2)⟩])
    else
      some (Except.ok ⟨body, [], chunks⟩)

/-- Model of `decodeChunkedResponse` on an already-buffered input. -/
def decodeChunkedResponse (s : List Char) : Option (Except String DecodeResult) :=
  decodeLoop s (s.length + 1) 0 [] []

/-- Concatenation, in order of appearance, of the payloads of all chunk
records that are not the size-0 terminator. -/
def nonTerminalData (chunks : List ChunkMeta) : List Char :=
  ((chunks.filter fun c => c.size ≠ some 0).map (fun c => c.data)).flatten

/-- The C1 sample input `"5\r\nHello\r\n7\r\n World!\r\n0\r\n\r\n"`. -/
def chunkedSample : List Char := "5\r\nHello\r\n7\r\n World!\r\n0\r\n\r\n".data

/-- The C2 sample input `"5Hello\r\n0\r\n\r\n"` with the missing size/data
delimiter. -/
def chunkedBadSample : List Char := "5Hello\r\n0\r\n\r\n".data

/-- The decoded result of the C1 sample (total extraction used by the C1
witness; the fallback value is never reached). -/
def chunkedSampleDecoded : DecodeResult :=
  match decodeChunkedResponse chunkedSample with
  | some (Except.ok r) => r
  | _ => ⟨[], [], []⟩

/-- A JS header value as seen by this module: a plain string, an array of
strings (joined by a comma under `String(...)` coercion), or `null`. -/
inductive HVal where
  | str (s : String)
  | arr (vs : List String)
  | null
deriving Repr, DecidableEq

/-- JS truthiness of a header value (`''` and `null` are falsy; every array
is truthy). -/
def truthy : HVal → Bool
  | .str s => !s.isEmpty
  | .arr _ => true
  | .null => false

/-- Model of the `String(value)` coercion used on header values. -/
def hvalToString : HVal → String
  | .str s => s
  | .arr vs => String.intercalate "," vs
  | .null => "null"

/-- ASCII lowercase of a character list (model of
`String.prototype.toLowerCase` on the ASCII header values at hand). -/
def toLowerL (l : List Char) : List Char :=
  l.map Char.toLower

/-- Split a character list on every occurrence of `c`
(model of `String.prototype.split` with a one-character separator). -/
def splitChar (c : Char) : List Char → List (List Char)
  | [] => [[]]
  | a :: rest =>
    if a = c then [] :: splitChar c rest
    else
      match splitChar c rest with
      | [] => [[a]]
      | h :: t => (a :: h) :: t

/-- Property lookup `headers[name]` on a JS object modelled as an
association list with distinct keys (exact, case-sensitive match). -/
def jsLookup (h : List (String × HVal)) (name : String) : Option HVal :=
  (h.find? fun p => p.1 == name).map (fun p => p.2)

/-- Model of the JS `a || b` fallback: keeps `a` when present and truthy,
otherwise yields the default. -/
def jsOr (v : Option HVal) (d : HVal) : HVal :=
  match v with
  | some w => if truthy w then w else d
  | none => d

/-- Model of `isChunkedResponse(headers)`: `null`/`undefined` headers give
`false`; otherwise the value of `headers['transfer-encoding'] ||
headers['Transfer-Encoding'] || ''` is stringified, lowercased and searched
for the substring `'chunked'`. -/
def isChunkedResponse (headers : Option (List (String × HVal))) : Bool :=
  match headers with
  | none => false
  | some h =>
    hasSubstr
      (toLowerL
        (hvalToString
          (jsOr (jsLookup h "transfer-encoding")
            (jsOr (jsLookup h "Transfer-Encoding") (HVal.str "")))).data)
      ("chunked".data)

/-- Modelled from the spec wording of C7 (for comparison only): true iff some
header whose NAME matches `transfer-encoding` case-insensitively has a value
whose comma-separated coding list contains the token `chunked`. -/
def isChunkedSpec (headers : Option (List (String × HVal))) : Bool :=
  match headers with
  | none => false
  | some h =>
    h.any fun p =>
      toLowerL p.1.data == "transfer-encoding".data &&
      (((splitChar ',' (toLowerL (hvalToString p.2).data)).map trimWS).contains
        "chunked".data)

/-- One supported content-coding of the compression chain. -/
inductive EncTok where
  | gzip
  | deflate
  | br
deriving Repr, DecidableEq

/-- The lowercase token of a coding, as it appears in a Content-Encoding
header. -/
def encName : EncTok → List Char
  | .gzip => "gzip".data
  | .deflate => "deflate".data
  | .br => "br".data

/-- Abstract model of the external zlib/brotli codecs used by
`decompressResponseBody`. Compressors are total; decompressors return `none`
where the JS promise rejects. The round-trip laws state that each
decompressor inverts its compressor, and the nonemptiness laws reflect that
real gzip/deflate/brotli streams are never zero-length (gzip alone carries a
10-byte header). -/
structure Codecs where
  gzipC : List Nat → List Nat
  gunzipD : List Nat → Option (List Nat)
  deflateC : List Nat → List Nat
  inflateD : List Nat → Option (List Nat)
  inflateRawD : List Nat → Option (List Nat)
  brC : List Nat → List Nat
  brD : List Nat → Option (List Nat)
  gzip_rt : ∀ b, gunzipD (gzipC b) = some b
  deflate_rt : ∀ b, inflateD (deflateC b) = some b
  br_rt : ∀ b, brD (brC b) = some b
  gzip_ne : ∀ b, gzipC b ≠ []
  deflate_ne : ∀ b, deflateC b ≠ []
  br_ne : ∀ b, brC b ≠ []

/-- Application of one coding's compressor. -/
def encodeTok (c : Codecs) (t : EncTok) (b : List Nat) : List Nat :=
  match t with
  | .gzip => c.gzipC b
  | .deflate => c.deflateC b
  | .br => c.brC b

/-- Modelled from the spec: `encodeChain(B, E1..En)` applies the codings in
order of appearance — E1 first, En last (En is outermost). -/
def encodeChain (c : Codecs) (toks : List EncTok) (B : List Nat) : List Nat :=
  toks.foldl (fun acc t => encodeTok c t acc) B

/-- Auxiliary right-to-left view of `encodeChain`: the head of the list is
the outermost coding. -/
def encodeRev (c : Codecs) : List EncTok → List Nat → List Nat
  | [], B => B
  | t :: r, B => encodeTok c t (encodeRev c r B)

/-- The Content-Encoding header text `"E1, E2, ..., En"` for a chain. -/
def headerOf : List EncTok → List Char
  | [] => []
  | [t] => encName t
  | t :: rest => encName t ++ ',' :: ' ' :: headerOf rest

/-- Model of `encodingStr.split(',').map(e => e.trim().toLowerCase())`. -/
def parseEncodings (s : List Char) : List (List Char) :=
  (splitChar ',' s).map fun e => toLowerL (trimWS e)

/-- One iteration of the decompression loop of `decompressResponseBody` on
the state `(result, decompressed, logs)`: a recognised coding that decodes
successfully replaces the bytes and sets the flag; `deflate` falls back to
raw-deflate before failing; a failing stage logs a decompression error and
passes the bytes through unchanged; an unrecognised coding is skipped. -/
def applyStage (c : Codecs) (st : List Nat × Bool × List String)
    (enc : List Char) : List Nat × Bool × List String :=
  match st with
  | (result, dec, logs) =>
    if enc = "gzip".data then
      match c.gunzipD result with
      | some r => (r, true, logs)
      | none => (result, dec, logs ++ ["Decompression error (gzip)"])
    else if enc = "deflate".data then
      match c.inflateD result with
      | some r => (r, true, logs)
      | none =>
        match c.inflateRawD result with
        | some r => (r, true, logs)
        | none => (result, dec, logs ++ ["Decompression error (deflate)"])
    else if enc = "br".data then
      match c.brD result with
      | some r => (r, true, logs)
      | none => (result, dec, logs ++ ["Decompression error (br)"])
    else (result, dec, logs)

/-- A stage fails when every decoder the source would try for that coding
rejects. -/
def stageFails (c : Codecs) (enc : List Char) (bytes : List Nat) : Prop :=
  (enc = "gzip".data ∧ c.gunzipD bytes = none) ∨
  (enc = "deflate".data ∧ c.inflateD bytes = none ∧ c.inflateRawD bytes = none) ∨
  (enc = "br".data ∧ c.brD bytes = none)

/-- The log text of a failed stage. -/
def stageFailLog (enc : List Char) : String :=
  if enc = "gzip".data then "Decompression error (gzip)"
  else if enc = "deflate".data then "Decompression error (deflate)"
  else "Decompression error (br)"

/-- Model of `decompressResponseBody` up to the final `Buffer.toString()`
(an external byte-to-text conversion): empty input returns immediately; a
truthy Content-Encoding header is split into codings processed in reverse
order; if no stage set the `decompressed` flag, signature-based
auto-detection runs on the ORIGINAL buffer (gzip magic `1F 8B`, zlib header
`78 01/9C/DA` with raw-deflate fallback). Returns the result bytes and the
accumulated log messages. -/
def decompressBytes (c : Codecs) (buffer : List Nat)
    (contentEncoding : Option (List Char)) : List Nat × List String :=
  if buffer.isEmpty then ([], [])
  else
    match
      (match contentEncoding with
        | some s =>
          if s.isEmpty then (buffer, false, ([] : List String))
          else (parseEncodings s).reverse.foldl (applyStage c) (buffer, false, [])
        | none => (buffer, false, [])) with
    | (result, decompressed, logs) =>
      if !decompressed && 3 ≤ buffer.length then
        if buffer[0]? == some 0x1F && buffer[1]? == some 0x8B then
          match c.gunzipD buffer with
          | some r =>
            (r, logs ++ ["Auto-detected gzip compression and decompressed successfully"])
          | none => (result, logs)
        else if buffer[0]? == some 0x78 &&
            (buffer[1]? == some 0x01 || buffer[1]? == some 0x9C ||
              buffer[1]? == some 0xDA) then
          match c.inflateD buffer with
          | some r =>
            (r, logs ++ ["Auto-detected zlib compression and decompressed successfully"])
          | none =>
            match c.inflateRawD buffer with
            | some r =>
              (r, logs ++
                ["Auto-detected raw deflate compression and decompressed successfully"])
            | none => (result, logs)
        else (result, logs)
      else (result, logs)

/-- A concrete codec family satisfying the round-trip laws: each compressor
prepends a distinguishing tag byte. Used only to witness the C3 theorem. -/
def tagCodecs : Codecs where
  gzipC b := 1 :: b
  gunzipD b := match b with | 1 :: r => some r | _ => none
  deflateC b := 2 :: b
  inflateD b := match b with | 2 :: r => some r | _ => none
  inflateRawD _ := none
  brC b := 3 :: b
  brD b := match b with | 3 :: r => some r | _ => none
  gzip_rt _ := rfl
  deflate_rt _ := rfl
  br_rt _ := rfl
  gzip_ne _ := by simp
  deflate_ne _ := by simp
  br_ne _ := by simp

/-- One HAR header pair. -/
structure Header where
  name : String
  value : String
deriving Repr, DecidableEq

/-- One HAR cookie; the optional attributes stay `none` (and the flags
`false`) when the source never assigns them. -/
structure Cookie where
  name : String
  value : String
  path : Option String
  domain : Option String
  expires : Option String
  httpOnly : Bool
  secure : Bool
deriving Repr, DecidableEq

/-- One query-string or form parameter. -/
structure QParam where
  name : String
  value : String
deriving Repr, DecidableEq

/-- The request `postData` record. -/
structure PostData where
  mimeType : String
  text : String
  params : Option (List QParam)
deriving Repr, DecidableEq

/-- The response `content` record. `compression` is absent in the
placeholder and `0` once a response is applied. -/
structure HarContent where
  size : Nat
  compression : Option Nat
  mimeType : String
  text : String
deriving Repr, DecidableEq

/-- The response sub-record of an entry. -/
structure HarResponse where
  status : Nat
  statusText : String
  httpVersion : String
  cookies : List Cookie
  headers : List Header
  content : HarContent
  redirectURL : String
  headersSize : Int
  bodySize : Int
deriving Repr, DecidableEq

/-- The request sub-record of an entry. -/
structure HarRequest where
  method : String
  url : String
  httpVersion : String
  cookies : List Cookie
  headers : List Header
  queryString : List QParam
  headersSize : Int
  bodySize : Nat
  postData : Option PostData
deriving Repr, DecidableEq

/-- The per-entry timing phases. -/
structure Timings where
  blocked : Int
  dns : Int
  connect : Int
  ssl : Int
  send : Int
  wait : Int
  receive : Int
deriving Repr, DecidableEq

/-- One archive entry. The presentational constant fields of the source
(`pageref`, `cache`, `serverIPAddress`) are omitted; `_securityDetails` is
kept as the boolean `secTLS` and `_meta.interceptorType` as a string.
`startedTime` stands for the external `new Date()` timestamp. -/
structure Entry where
  startedTime : Nat
  time : Nat
  request : HarRequest
  response : HarResponse
  timings : Timings
  secTLS : Bool
  interceptorType : String
deriving Repr, DecidableEq

/-- Raw headers handed to the formatter: either a JS object (association
list of header values) or an already-HAR-shaped array. -/
inductive HeadersIn where
  | obj (fields : List (String × HVal))
  | arrIn (hs : List Header)
deriving Repr, DecidableEq

/-- Model of `HarFormatter.formatHeaders`: `null`/non-object inputs give
`[]`; an array input is taken field-wise; an object's entries are mapped with
array values joined by `", "` and `null` values coerced to `""`. -/
def formatHeaders (headers : Option HeadersIn) : List Header :=
  match headers with
  | none => []
  | some (.arrIn hs) => hs.map fun h => ⟨h.name, h.value⟩
  | some (.obj fields) =>
    fields.map fun p =>
      ⟨p.1,
        match p.2 with
        | .arr vs => String.intercalate ", " vs
        | .str s => s
        | .null => ""⟩

/-- Property access `headers[name]` (undefined on the array shape, which has
no such named properties). -/
def jsGet (headers : Option HeadersIn) (name : String) : Option HVal :=
  match headers with
  | some (.obj fields) => jsLookup fields name
  | _ => none

/-- Model of `HarFormatter.extractCookies`: the `cookie`/`Cookie` header is
split on `;`, each trimmed segment `name=value` (extra `=`-parts dropped,
missing value read as `""`) yields a cookie when the name is nonempty;
non-string cookie headers yield nothing. -/
def extractCookies (headers : Option HeadersIn) : List Cookie :=
  match headers with
  | none => []
  | some hs =>
    match jsOr (jsGet (some hs) "cookie") (jsOr (jsGet (some hs) "Cookie") (.str "")) with
    | .str s =>
      if s.isEmpty then []
      else
        (splitChar ';' s.data).filterMap fun part =>
          let seg := splitChar '=' (trimWS part)
          let nm := seg.headD []
          let vl := (seg.drop 1).headD []
          if nm.isEmpty then none
          else some ⟨String.mk nm, String.mk vl, none, none, none, false, false⟩
    | _ => []

/-- Attribute folding of one Set-Cookie string's `;`-separated attributes
after the first segment: `expires`/`path`/`domain` take the (possibly
missing) attribute value, `httponly`/`secure` set their flags, names
compared case-insensitively. -/
def applySetCookieAttrs (attrs : List (List Char)) (ck : Cookie) : Cookie :=
  attrs.foldl
    (fun ck attr =>
      let seg := splitChar '=' (trimWS attr)
      let attrName := toLowerL (seg.headD [])
      let attrValue := (seg.drop 1).head?
      let ck := if attrName = "expires".data then
          { ck with expires := attrValue.map String.mk } else ck
      let ck := if attrName = "path".data then
          { ck with path := attrValue.map String.mk } else ck
      let ck := if attrName = "domain".data then
          { ck with domain := attrValue.map String.mk } else ck
      let ck := if attrName = "httponly".data then { ck with httpOnly := true } else ck
      let ck := if attrName = "secure".data then { ck with secure := true } else ck
      ck)
    ck

/-- Model of `HarFormatter.extractSetCookies`: the `set-cookie`/`Set-Cookie`
header (string or array of strings; falsy gives `[]`) is parsed cookie by
cookie — first `;`-segment as `name=value`, remaining segments as
attributes. -/
def extractSetCookies (headers : Option HeadersIn) : List Cookie :=
  match headers with
  | none => []
  | some hs =>
    let sc := jsOr (jsGet (some hs) "set-cookie")
      (jsOr (jsGet (some hs) "Set-Cookie") (.str ""))
    if truthy sc = false then []
    else
      let cookieStrings :=
        match sc with
        | .arr vs => vs
        | .str s => [s]
        | .null => []
      cookieStrings.filterMap fun cookieStr =>
        match splitChar ';' cookieStr.data with
        | [] => none
        | nameValue :: attributes =>
          if nameValue.isEmpty then none
          else
            let seg := splitChar '=' (trimWS nameValue)
            let nm := seg.headD []
            let vl := (seg.drop 1).headD []
            if nm.isEmpty then none
            else some (applySetCookieAttrs attributes
              ⟨String.mk nm, String.mk vl, none, none, none, false, false⟩)

/-- Modelled from the spec: query parameters are URL-parsed. The external
WHATWG URL parser of `extractQueryParams` is approximated: the text after
the first `?` (cut at the first `#`) is split on `&`; each nonempty segment
`name=value` (value `""` when `=` is absent) yields one parameter;
percent-decoding is not modelled. -/
def extractQueryParams (urlString : String) : List QParam :=
  match indexOfCharFrom urlString.data '?' 0 with
  | none => []
  | some i =>
    let q := urlString.data.drop (i + 1)
    let q :=
      match indexOfCharFrom q '#' 0 with
      | some j => q.take j
      | none => q
    (splitChar '&' q).filterMap fun seg =>
      if seg.isEmpty then none
      else
        match indexOfCharFrom seg '=' 0 with
        | some k => some ⟨String.mk (seg.take k), String.mk (seg.drop (k + 1))⟩
        | none => some ⟨String.mk seg, ""⟩

/-- Model of `HarFormatter.calculateHeadersSize`: per header
`len(name) + 2 + len(value) + 2`, plus a final 2. -/
def calculateHeadersSize (harHeaders : List Header) : Int :=
  (harHeaders.foldl
    (fun size h => size + (h.name.length : Int) + 2 + (h.value.length : Int) + 2)
    (0 : Int)) + 2

/-- The per-request timing record set by `startRequest`. -/
structure TimingRec where
  startTime : Nat
  blocked : Int
  dns : Int
  connect : Int
  ssl : Int
  send : Int
  wait : Int
  receive : Int
deriving Repr, DecidableEq

/-- Formatter state: the entries array plus the requestId-to-index map and
the pending timing records (the source's `entryMap` only aliases entries and
is never read, so it is omitted). -/
structure HarState where
  entries : List Entry
  requestMap : List (String × Nat)
  requestTimings : List (String × TimingRec)
deriving Repr, DecidableEq

/-- Lookup in a JS `Map` modelled as an association list. -/
def mapGet {α : Type} (m : List (String × α)) (k : String) : Option α :=
  (m.find? fun p => p.1 == k).map fun p => p.2

/-- Model of `Map.prototype.set`: overwrite in place or append. -/
def mapSet {α : Type} (m : List (String × α)) (k : String) (v : α) :
    List (String × α) :=
  if m.any (fun p => p.1 == k) then
    m.map fun p => if p.1 == k then (k, v) else p
  else m ++ [(k, v)]

/-- Model of `Map.prototype.delete`. -/
def mapDel {α : Type} (m : List (String × α)) (k : String) :
    List (String × α) :=
  m.filter fun p => p.1 != k

/-- The argument object of `HarFormatter.addRequest`. -/
structure RequestData where
  requestId : String
  method : String
  url : String
  headers : Option HeadersIn
  body : Option String
  httpVersion : String
  isHttps : Bool
  interceptorType : String
deriving Repr, DecidableEq

/-- The argument object of `HarFormatter.addResponse`. -/
structure ResponseData where
  requestId : String
  statusCode : Nat
  statusText : String
  headers : Option HeadersIn
  body : Option String
  httpVersion : String
deriving Repr, DecidableEq

/-- The placeholder response attached at open time (status 0, everything
empty, sizes -1). -/
def placeholderResponse : HarResponse :=
  ⟨0, "", "HTTP/1.1", [], [], ⟨0, none, "", ""⟩, "", -1, -1⟩

/-- Request content type lookup `headers['Content-Type'] ||
headers['content-type'] || ''`. -/
def reqContentType (headers : Option HeadersIn) : String :=
  hvalToString (jsOr (jsGet headers "Content-Type")
    (jsOr (jsGet headers "content-type") (.str "")))

/-- Modelled from the spec: form-encoded bodies are decomposed into a
parameter list. Approximates the external `URLSearchParams` splitting
(`&`-separated `name=value` segments, no percent-decoding). -/
def parseFormParams (body : String) : List QParam :=
  (splitChar '&' body.data).filterMap fun seg =>
    if seg.isEmpty then none
    else
      match indexOfCharFrom seg '=' 0 with
      | some k => some ⟨String.mk (seg.take k), String.mk (seg.drop (k + 1))⟩
      | none => some ⟨String.mk seg, ""⟩

/-- Model of `HarFormatter.addRequest`: derives the populated request record
(headers, cookies, query string, header-block size, body size, optional
form-decomposed post data), attaches the placeholder response, registers the
timing record and the id-to-index mapping, and appends the entry. -/
def addRequest (st : HarState) (now : Nat) (rd : RequestData) :
    HarState × Entry :=
  let harHeaders := formatHeaders rd.headers
  let postData : Option PostData :=
    match rd.body with
    | none => none
    | some b =>
      let contentType := reqContentType rd.headers
      some
        ⟨contentType, b,
          if hasSubstr contentType.data "application/x-www-form-urlencoded".data then
            match parseFormParams b with
            | [] => none
            | ps => some ps
          else none⟩
  let entry : Entry :=
    { startedTime := now
      time := 0
      request :=
        { method := rd.method
          url := rd.url
          httpVersion := rd.httpVersion
          cookies := extractCookies rd.headers
          headers := harHeaders
          queryString := extractQueryParams rd.url
          headersSize := calculateHeadersSize harHeaders
          bodySize := match rd.body with | some b => b.utf8ByteSize | none => 0
          postData := postData }
      response := placeholderResponse
      timings := ⟨-1, -1, -1, -1, 0, 0, 0⟩
      secTLS := rd.isHttps
      interceptorType := rd.interceptorType }
  ({ entries := st.entries ++ [entry]
     requestMap := mapSet st.requestMap rd.requestId st.entries.length
     requestTimings := mapSet st.requestTimings rd.requestId
       ⟨now, -1, -1, -1, -1, 0, 0, 0⟩ },
   entry)

/-- JS numeric `x || d` (x falsy exactly when 0; NaN does not arise here). -/
def jsOrNum (v d : Int) : Int :=
  if v = 0 then d else v

/-- Approximation of `Math.round(totalTime * (num/10))` used by the
10/70/20% phase split (binary floating-point rounding differences are
immaterial here). -/
def roundFrac (t : Nat) (num : Nat) : Int :=
  (((num * t + 5) / 10 : Nat) : Int)

/-- Sum of the non-negative phase durations. -/
def sumNonneg (t : Timings) : Int :=
  [t.blocked, t.dns, t.connect, t.ssl, t.send, t.wait, t.receive].foldl
    (fun acc v => if 0 ≤ v then acc + v else acc) 0

/-- Model of `HarFormatter.addResponse` (with `now` standing for the
external `Date.now()`): an unknown requestId reports a correlation miss and
returns the state untouched; otherwise the entry's timings and `time` are
derived from the pending timing record, the response sub-record is rebuilt
from the response data, the timing record dropped, and the updated entry
stored back at its index. The 3xx branch of the source re-assigns
`redirectURL` from the same Location header and is collapsed into the single
assignment. -/
def addResponse (st : HarState) (now : Nat) (rd : ResponseData) :
    HarState × Option Entry × List String :=
  match mapGet st.requestMap rd.requestId with
  | none =>
    (st, none, ["No matching request found for response with ID " ++ rd.requestId])
  | some entryIndex =>
    match st.entries[entryIndex]? with
    | none => (st, none, [])
    | some entry =>
      let harHeaders := formatHeaders rd.headers
      let contentType := hvalToString (jsOr (jsGet rd.headers "content-type")
        (jsOr (jsGet rd.headers "Content-Type") (.str "")))
      let tt :=
        match mapGet st.requestTimings rd.requestId with
        | some t =>
          let totalTime := now - t.startTime
          let tms : Timings :=
            { blocked := jsOrNum t.blocked (-1)
              dns := jsOrNum t.dns (-1)
              connect := jsOrNum t.connect (-1)
              ssl := jsOrNum t.ssl (-1)
              send := jsOrNum t.send (roundFrac totalTime 1)
              wait := jsOrNum t.wait (roundFrac totalTime 7)
              receive := jsOrNum t.receive (roundFrac totalTime 2) }
          (tms, (max 1 (sumNonneg tms)).toNat)
        | none => (entry.timings, entry.time)
      let response : HarResponse :=
        { status := rd.statusCode
          statusText := rd.statusText
          httpVersion := rd.httpVersion
          cookies := extractSetCookies rd.headers
          headers := harHeaders
          content :=
            ⟨(match rd.body with | some b => b.utf8ByteSize | none => 0), some 0,
              (if contentType.isEmpty then "text/plain" else contentType),
              (match rd.body with | some b => b | none => "")⟩
          redirectURL := hvalToString (jsOr (jsGet rd.headers "location")
            (jsOr (jsGet rd.headers "Location") (.str "")))
          headersSize := calculateHeadersSize harHeaders
          bodySize := match rd.body with | some b => (b.utf8ByteSize : Int) | none => 0 }
      let entry2 : Entry :=
        { entry with response := response, timings := tt.1, time := tt.2 }
      ({ st with
          entries := st.entries.set entryIndex entry2
          requestTimings := mapDel st.requestTimings rd.requestId },
        some entry2, [])

/-- State of the logger module of `har-logger.cjs`: the process-lifetime
duplicate-detection sets plus the formatter state (the URL/method/pending
maps not touched by the claims are omitted). -/
structure LoggerState where
  loggedRequests : List String
  loggedResponses : List String
  har : HarState
deriving Repr, DecidableEq

/-- Model of `getRequestKey`. -/
def getRequestKey (method host path : String) : String :=
  method ++ ":" ++ host ++ ":" ++ path

/-- Model of `getResponseKey`. -/
def getResponseKey (requestId : String) (statusCode : Nat) : String :=
  requestId ++ ":" ++ toString statusCode

/-- The URL `protocol://host+path` built by `logRequest`. -/
def mkFullUrl (isHttps : Bool) (host path : String) : String :=
  (if isHttps then "https" else "http") ++ "://" ++ host ++ path

/-- Model of `logRequest`: checks the (method, host, path) key against the
process-lifetime set, ALWAYS adds the full entry, records the key when new,
and returns the duplicate flag. -/
def logRequest (ls : LoggerState) (now : Nat) (method host path : String)
    (headers : Option HeadersIn) (requestId : String) (isHttps : Bool)
    (interceptorType : String) : LoggerState × Bool :=
  let requestKey := getRequestKey method host path
  let isDuplicate := ls.loggedRequests.contains requestKey
  let har2 := (addRequest ls.har now
    ⟨requestId, method, mkFullUrl isHttps host path, headers, none,
      "HTTP/1.1", isHttps, interceptorType⟩).1
  ({ ls with
      har := har2
      loggedRequests :=
        if isDuplicate then ls.loggedRequests
        else ls.loggedRequests ++ [requestKey] },
   isDuplicate)

/-- Model of `logResponse` (the `method`/`url` parameters are accepted and
unused, as in the source): a response key already seen returns `true` without
touching anything; otherwise the key is recorded, the response applied via
`addResponse`, and `false` returned. -/
def logResponse (ls : LoggerState) (now : Nat) (requestId method url : String)
    (statusCode : Nat) (statusMessage : String) (headers : Option HeadersIn) :
    LoggerState × Bool :=
  let responseKey := getResponseKey requestId statusCode
  if ls.loggedResponses.contains responseKey then (ls, true)
  else
    let har2 := (addResponse ls.har now
      ⟨requestId, statusCode, statusMessage, headers, none, "HTTP/1.1"⟩).1
    ({ ls with
        loggedResponses := ls.loggedResponses ++ [responseKey]
        har := har2 },
     false)

/-- Fresh logger state. -/
def initLoggerState : LoggerState :=
  ⟨[], [], ⟨[], [], []⟩⟩

/-- A default entry used only as an unreachable match fallback. -/
def defaultEntry : Entry :=
  ⟨0, 0, ⟨"", "", "", [], [], [], 0, 0, none⟩, placeholderResponse,
    ⟨-1, -1, -1, -1, 0, 0, 0⟩, false, ""⟩

/-- C9 scenario, step 1: open request `r1`. -/
def c9Open : LoggerState × Bool :=
  logRequest initLoggerState 100 "GET" "example.com" "/a" (some (.obj []))
    "r1" false "http"

/-- C9 scenario, step 2: first close of `r1` with status 200. -/
def c9Close1 : LoggerState × Bool :=
  logResponse c9Open.1 150 "r1" "GET" "http://example.com/a" 200 "OK"
    (some (.obj []))

/-- C9 scenario, step 3: second close of the SAME id `r1` with status 404. -/
def c9Close2 : LoggerState × Bool :=
  logResponse c9Close1.1 160 "r1" "GET" "http://example.com/a" 404 "Not Found"
    (some (.obj []))

/-- The entry appended by the C9 open (total extraction; the fallback value
is never reached). -/
def c9Entry : Entry :=
  match c9Open.1.har.entries[0]? with
  | some e => e
  | none => defaultEntry

/-- Predicate packaging the "fully populated" fields of an appended entry:
derived headers, cookies, query string, header-block and body sizes, the
status-0 placeholder response, and the metadata fields. -/
def populatedEntry (e : Entry) (now : Nat) (method url : String)
    (headers : Option HeadersIn) (isHttps : Bool) (itype : String) : Prop :=
  e.startedTime = now ∧
  e.request.method = method ∧
  e.request.url = url ∧
  e.request.headers = formatHeaders headers ∧
  e.request.cookies = extractCookies headers ∧
  e.request.queryString = extractQueryParams url ∧
  e.request.headersSize = calculateHeadersSize (formatHeaders headers) ∧
  e.request.bodySize = 0 ∧
  e.response = placeholderResponse ∧
  e.secTLS = isHttps ∧
  e.interceptorType = itype

/-- JSON values as produced by `JSON.parse` on the modelled streams
(numbers restricted to integers; floats do not occur in the claims'
inputs). -/
inductive Json where
  | jnull
  | jbool (b : Bool)
  | jnum (n : Int)
  | jstr (s : String)
  | jarr (xs : List Json)
  | jobj (fields : List (String × Json))

/-- Property access `j[name]` (`none` models `undefined`). -/
def getField (j : Json) (name : String) : Option Json :=
  match j with
  | .jobj fields => (fields.find? fun p => p.1 == name).map fun p => p.2
  | _ => none

/-- JS truthiness of a JSON value. -/
def truthyJson : Json → Bool
  | .jnull => false
  | .jbool b => b
  | .jnum n => !(n == 0)
  | .jstr s => !s.isEmpty
  | .jarr _ => true
  | .jobj _ => true

/-- JS `v || d` on JSON values. -/
def jsOrJson (v : Option Json) (d : Json) : Json :=
  match v with
  | some j => if truthyJson j then j else d
  | none => d

/-- Fields of an object (a non-object spreads no fields; spreading strings
is not modelled). -/
def objFields : Json → List (String × Json)
  | .jobj fs => fs
  | _ => []

/-- Model of the shallow object spread `\x7b...a, ...b\x7d`: keys of `a` in
order with values overridden by `b`, then the new keys of `b` in order. -/
def mergeObj (a b : Json) : Json :=
  let fa := objFields a
  let fb := objFields b
  .jobj
    ((fa.map fun p =>
        match fb.find? (fun q => q.1 == p.1) with
        | some q => (p.1, q.2)
        | none => p) ++
      (fb.filter fun q => !(fa.any fun p => p.1 == q.1)))

/-- JSON insignificant whitespace. -/
def jsonWS (c : Char) : Bool :=
  c = ' ' || c = '\t' || c = '\n' || c = '\r'

/-- Skip JSON whitespace. -/
def skipJsonWS (s : List Char) : List Char :=
  s.dropWhile jsonWS

/-- String-body scanner of the JSON parser (basic escapes only; `\u` does
not occur in the modelled inputs). Returns the decoded characters and the
remainder after the closing quote. -/
def parseStrAux : List Char → List Char → Option (List Char × List Char)
  | [], _ => none
  | '"' :: rest, acc => some (acc.reverse, rest)
  | '\\' :: e :: rest, acc =>
    match e with
    | '"' => parseStrAux rest ('"' :: acc)
    | '\\' => parseStrAux rest ('\\' :: acc)
    | '/' => parseStrAux rest ('/' :: acc)
    | 'n' => parseStrAux rest ('\n' :: acc)
    | 't' => parseStrAux rest ('\t' :: acc)
    | 'r' => parseStrAux rest ('\r' :: acc)
    | 'b' => parseStrAux rest ('\x08' :: acc)
    | 'f' => parseStrAux rest ('\x0c' :: acc)
    | _ => none
  | c :: rest, acc => parseStrAux rest (c :: acc)

/-- Decimal digit value. -/
def digitVal? (c : Char) : Option Nat :=
  if '0' ≤ c ∧ c ≤ '9' then some (c.toNat - '0'.toNat) else none

/-- Whether `c` is a decimal digit. -/
def isDigitC (c : Char) : Bool :=
  (digitVal? c).isSome

/-- Value of a run of decimal digits. -/
def decDigitsVal (ds : List Char) : Nat :=
  ds.foldl (fun a c => 10 * a + ((digitVal? c).getD 0)) 0

mutual

/-- Fueled recursive-descent model of `JSON.parse` for one value. -/
def parseJsonVal : Nat → List Char → Option (Json × List Char)
  | 0, _ => none
  | fuel + 1, s =>
    match skipJsonWS s with
    | 'n' :: 'u' :: 'l' :: 'l' :: r => some (.jnull, r)
    | 't' :: 'r' :: 'u' :: 'e' :: r => some (.jbool true, r)
    | 'f' :: 'a' :: 'l' :: 's' :: 'e' :: r => some (.jbool false, r)
    | '"' :: r => (parseStrAux r []).map fun p => (.jstr (String.mk p.1), p.2)
    | '[' :: r =>
      (match skipJsonWS r with
        | ']' :: r2 => some (.jarr [], r2)
        | _ => (parseJsonItems fuel r).map fun p => (.jarr p.1, p.2))
    | '\x7b' :: r =>
      (match skipJsonWS r with
        | '\x7d' :: r2 => some (.jobj [], r2)
        | _ => (parseJsonFields fuel r).map fun p => (.jobj p.1, p.2))
    | '-' :: r =>
      let ds := r.takeWhile isDigitC
      if ds.isEmpty then none
      else some (.jnum (-(decDigitsVal ds : Int)), r.drop ds.length)
    | c :: r =>
      if isDigitC c then
        let ds := (c :: r).takeWhile isDigitC
        some (.jnum (decDigitsVal ds : Int), (c :: r).drop ds.length)
      else none
    | [] => none

/-- Comma-separated array items up to `]`. -/
def parseJsonItems : Nat → List Char → Option (List Json × List Char)
  | 0, _ => none
  | fuel + 1, s =>
    match parseJsonVal fuel s with
    | none => none
    | some (v, rest) =>
      match skipJsonWS rest with
      | ',' :: r2 => (parseJsonItems fuel r2).map fun p => (v :: p.1, p.2)
      | ']' :: r2 => some ([v], r2)
      | _ => none

/-- Comma-separated object fields up to the closing brace. -/
def parseJsonFields : Nat → List Char → Option (List (String × Json) × List Char)
  | 0, _ => none
  | fuel + 1, s =>
    match skipJsonWS s with
    | '"' :: r =>
      (match parseStrAux r [] with
        | none => none
        | some (key, r2) =>
          match skipJsonWS r2 with
          | ':' :: r3 =>
            (match parseJsonVal fuel r3 with
              | none => none
              | some (v, r4) =>
                match skipJsonWS r4 with
                | ',' :: r5 =>
                  (parseJsonFields fuel r5).map fun p =>
                    ((String.mk key, v) :: p.1, p.2)
                | '\x7d' :: r5 => some ([(String.mk key, v)], r5)
                | _ => none)
          | _ => none)
    | _ => none

end

/-- Model of `JSON.parse`: parse one value and require only whitespace to
remain. The fuel is ample for any input of the given length. -/
def jsonParse (s : String) : Option Json :=
  match parseJsonVal (2 * s.length + 8) s.data with
  | some (j, rest) => if (skipJsonWS rest).isEmpty then some j else none
  | none => none

/-- Split on blank lines, the event-boundary split `content.split(/\n\n/)`. -/
def splitDoubleNL : List Char → List (List Char)
  | [] => [[]]
  | '\n' :: '\n' :: rest => [] :: splitDoubleNL rest
  | c :: rest =>
    match splitDoubleNL rest with
    | [] => [[c]]
    | h :: t => (c :: h) :: t

/-- Model of `chunk.match(/^pre(.+)$/m)`: the capture of the first line
beginning with `pre` and having a nonempty remainder. -/
def matchPrefixLine (lines : List (List Char)) (pre : List Char) :
    Option (List Char) :=
  match lines with
  | [] => none
  | l :: rest =>
    if listPrefix pre l && !(l.drop pre.length).isEmpty then
      some (l.drop pre.length)
    else matchPrefixLine rest pre

/-- One reconstructed content block, mirroring the objects built by
`processEvent` (`none` stands for both JS `null` and an absent field). -/
structure CBlock where
  type : String
  text : Option String
  tool_use : Option Json
  thinking : Option String

/-- The reconstructed message folded over the event stream (the unused
`metadata` seed object is omitted). -/
structure RMessage where
  id : Option Json
  role : Option Json
  model : Option Json
  usage : Option Json
  stop_reason : Option Json
  stop_sequence : Option Json
  content : List (Option CBlock)
  error : Option Json
  errors : List (String × Json)

/-- The empty reconstructed message. -/
def emptyRMessage : RMessage :=
  ⟨none, none, none, none, none, none, [], none, []⟩

/-- JS array index assignment `a[i] = b` with hole creation beyond the
current length (holes are `none`). -/
def setAt (l : List (Option CBlock)) (i : Nat) (b : CBlock) :
    List (Option CBlock) :=
  if i < l.length then l.set i (some b)
  else (l ++ List.replicate (i - l.length) none) ++ [some b]

/-- Read an index field as a natural number (the modelled streams only carry
non-negative integer indices). -/
def getNatIdx : Option Json → Option Nat
  | some (.jnum n) => if 0 ≤ n then some n.toNat else none
  | _ => none

/-- Model of `processEvent`: the switch over the event type folding
`eventData` into the message. A `content_block_delta` whose `delta` payload
is absent or `null` raises a TypeError in the source, which the surrounding
catch records in `message.errors` — modelled by appending to `errors`. -/
def processEvent (eventType : String) (d : Json) (m : RMessage) : RMessage :=
  if eventType == "message_start" then
    match getField d "message" with
    | some msg =>
      if truthyJson msg then
        { m with
          id := getField msg "id"
          role := getField msg "role"
          model := getField msg "model"
          usage := getField msg "usage"
          stop_reason := getField msg "stop_reason"
          stop_sequence := getField msg "stop_sequence" }
      else m
    | none => m
  else if eventType == "content_block_start" then
    match getNatIdx (getField d "index") with
    | none => m
    | some idx =>
      let blockType :=
        match getField d "content_block" with
        | some cb =>
          match getField cb "type" with
          | some (.jstr t) => if t.isEmpty then "unknown" else t
          | _ => "unknown"
        | none => "unknown"
      let blk : CBlock :=
        { type := blockType
          text := if blockType == "text" then some "" else none
          tool_use := if blockType == "tool_use" then some (.jobj []) else none
          thinking := if blockType == "thinking" then some "" else none }
      { m with content := setAt m.content idx blk }
  else if eventType == "content_block_delta" then
    match getNatIdx (getField d "index") with
    | none => m
    | some idx =>
      match getField d "delta" with
      | none => { m with errors := m.errors ++ [(eventType, d)] }
      | some .jnull => { m with errors := m.errors ++ [(eventType, d)] }
      | some delta =>
        let b0 : CBlock :=
          match m.content[idx]? with
          | some (some b) => b
          | _ => ⟨"unknown", some "", none, none⟩
        let b1 : CBlock :=
          match getField delta "type" with
          | some (.jstr t) =>
            if t == "text_delta" then
              { b0 with
                text := some ((b0.text.getD "") ++
                  (match getField delta "text" with
                    | some (.jstr s) => s
                    | _ => "")) }
            else if t == "tool_use_delta" then
              { b0 with
                tool_use := some (mergeObj (jsOrJson b0.tool_use (.jobj []))
                  (jsOrJson (getField delta "tool_use") (.jobj []))) }
            else if t == "thinking_delta" then
              { b0 with
                thinking := some ((b0.thinking.getD "") ++
                  (match getField delta "thinking" with
                    | some (.jstr s) => s
                    | _ => "")) }
            else b0
          | _ => b0
        { m with content := setAt m.content idx b1 }
  else if eventType == "message_delta" then
    match getField d "delta" with
    | some delta =>
      if truthyJson delta then
        { m with
          stop_reason :=
            match getField delta "stop_reason" with
            | some v => if truthyJson v then some v else m.stop_reason
            | none => m.stop_reason
          stop_sequence :=
            match getField delta "stop_sequence" with
            | some v => if truthyJson v then some v else m.stop_sequence
            | none => m.stop_sequence
          usage := some (mergeObj (jsOrJson m.usage (.jobj []))
            (jsOrJson (getField delta "usage") (.jobj []))) }
      else m
    | none => m
  else if eventType == "error" then
    { m with error := some d }
  else m

/-- Model of `parseSSEStream`: empty (or non-string) input yields no events
and an empty message; otherwise blank-line-separated chunks are scanned for
their `event:` and `data:` lines (chunks missing either are skipped), the
data payload is JSON-parsed (a failure is retained as a parse-error marker
object), and each event is appended and folded into the message. -/
def parseSSEStream (content : String) : List (String × Json) × RMessage :=
  if content.isEmpty then ([], emptyRMessage)
  else
    (splitDoubleNL content.data).foldl
      (fun acc chunk =>
        if (trimWS chunk).isEmpty then acc
        else
          match matchPrefixLine (splitChar '\n' chunk) "event: ".data,
              matchPrefixLine (splitChar '\n' chunk) "data: ".data with
          | some ev, some dat =>
            let eventType := String.mk ev
            let eventData :=
              match jsonParse (String.mk dat) with
              | some j => j
              | none =>
                .jobj [("raw", .jstr (String.mk dat)),
                  ("parse_error", .jstr "parse error")]
            (acc.1 ++ [(eventType, eventData)],
              processEvent eventType eventData acc.2)
          | _, _ => acc)
      ([], emptyRMessage)

/-- The text of the content block at index `i`, when present. -/
def blockTextAt (m : RMessage) (i : Nat) : Option String :=
  match m.content[i]? with
  | some (some b) => b.text
  | _ => none

/-- The C4 literal stream: `message_start` for id `m1`, a text block start
at index 0, two text deltas `Hel` and `lo`, and `message_stop`. -/
def c4Input : String :=
  "event: message_start\ndata: \x7b\"type\":\"message_start\",\"message\":\x7b\"id\":\"m1\",\"role\":\"assistant\"\x7d\x7d\n\nevent: content_block_start\ndata: \x7b\"type\":\"content_block_start\",\"index\":0,\"content_block\":\x7b\"type\":\"text\"\x7d\x7d\n\nevent: content_block_delta\ndata: \x7b\"type\":\"content_block_delta\",\"index\":0,\"delta\":\x7b\"type\":\"text_delta\",\"text\":\"Hel\"\x7d\x7d\n\nevent: content_block_delta\ndata: \x7b\"type\":\"content_block_delta\",\"index\":0,\"delta\":\x7b\"type\":\"text_delta\",\"text\":\"lo\"\x7d\x7d\n\nevent: message_stop\ndata: \x7b\"type\":\"message_stop\"\x7d\n"

/-- A JS value inside an object graph: primitives plus references into the
heap (reference identity is the heap index). -/
inductive JSVal where
  | vnull
  | vbool (b : Bool)
  | vnum (n : Int)
  | vstr (s : String)
  | vref (id : Nat)
deriving Repr, DecidableEq

/-- A heap object: a plain object, an array, or a `Date` instance (which
`limitObjectDepth` returns as-is). -/
inductive HObj where
  | hobj (fields : List (String × JSVal))
  | harr (items : List JSVal)
  | hdate
deriving Repr, DecidableEq

/-- An object heap; a value `vref i` denotes `objs[i]`. Distinct indices are
distinct object identities, so shared and cyclic structure is expressible. -/
structure Heap where
  objs : List HObj
deriving Repr, DecidableEq

/-- The copied tree produced by `limitObjectDepth` (cycle-free by
construction, built bottom-up). -/
inductive JTree where
  | tnull
  | tbool (b : Bool)
  | tnum (n : Int)
  | tstr (s : String)
  | tdate
  | tobj (fields : List (String × JTree))
  | tarr (items : List JTree)

/-- Copy of a primitive (non-reference) value; the reference case is
unreachable behind the callers' object checks. -/
def primTree : JSVal → JTree
  | .vnull => .tnull
  | .vbool b => .tbool b
  | .vnum n => .tnum n
  | .vstr s => .tstr s
  | .vref _ => .tnull

/-- Model of `limitObjectDepth`: despite its name and `maxDepth` parameter,
the source never compares `currentDepth` against `maxDepth` — it recurses
into every object-valued field and array item unconditionally. `fuel` models
the JS call stack, so a `none` result is the stack-overflow RangeError
raised when the recursion does not bottom out. Dangling references do not
occur in the heaps considered and are read as `null`. -/
def limitObjectDepth (h : Heap) : Nat → JSVal → Option JTree
  | 0, _ => none
  | fuel + 1, v =>
    match v with
    | .vref i =>
      match h.objs[i]? with
      | some (.harr items) =>
        Option.map JTree.tarr
          (items.mapM fun item =>
            match item with
            | JSVal.vref j => limitObjectDepth h fuel (JSVal.vref j)
            | prim => some (primTree prim))
      | some (.hobj fields) =>
        Option.map JTree.tobj
          (fields.mapM fun p =>
            match p.2 with
            | JSVal.vref j =>
              Option.map (fun t => (p.1, t)) (limitObjectDepth h fuel (JSVal.vref j))
            | _ => some (p.1, primTree p.2))
      | some .hdate => some .tdate
      | none => some .tnull
    | prim => some (primTree prim)

mutual

/-- Rendering of the copied tree. The source pretty-prints with
`JSON.stringify` at indent 2 under the identity-tracking replacer — which
never fires on the freshly built copy, whose nodes are all distinct
objects — and then compacts arrays with regexes; those presentational steps
are collapsed into a compact JSON rendering, which the claims never
constrain (the cyclic path never reaches this step). -/
def stringifyTree : JTree → String
  | .tnull => "null"
  | .tbool true => "true"
  | .tbool false => "false"
  | .tnum n => toString n
  | .tstr s => "\"" ++ s ++ "\""
  | .tdate => "\"[date]\""
  | .tobj fields => "\x7b" ++ stringifyFields fields ++ "\x7d"
  | .tarr items => "[" ++ stringifyItems items ++ "]"

/-- Comma-joined object fields. -/
def stringifyFields : List (String × JTree) → String
  | [] => ""
  | [p] => "\"" ++ p.1 ++ "\": " ++ stringifyTree p.2
  | p :: rest => "\"" ++ p.1 ++ "\": " ++ stringifyTree p.2 ++ ", " ++ stringifyFields rest

/-- Comma-joined array items. -/
def stringifyItems : List JTree → String
  | [] => ""
  | [t] => stringifyTree t
  | t :: rest => stringifyTree t ++ ", " ++ stringifyItems rest

end

/-- Model of the `String(obj)` excerpt used by the catch-all degradation
path: plain objects render as `[object Object]`; arrays join their items one
reference level deep (sufficient for the roots considered; the 200-character
truncation of the source never bites on them). -/
def jsToString (h : Heap) (v : JSVal) : String :=
  match v with
  | .vnull => "null"
  | .vbool true => "true"
  | .vbool false => "false"
  | .vnum n => toString n
  | .vstr s => s
  | .vref i =>
    match h.objs[i]? with
    | some (.hobj _) => "[object Object]"
    | some .hdate => "[date]"
    | some (.harr items) =>
      String.intercalate ","
        (items.map fun it =>
          match it with
          | .vnull => ""
          | .vbool true => "true"
          | .vbool false => "false"
          | .vnum n => toString n
          | .vstr s => s
          | .vref _ => "[object Object]")
    | none => "undefined"

/-- Model of `formatJson` at its default options, with `stackFuel` modelling
the JS call stack: `null`/`undefined` go through `String`, non-object
primitives through `JSON.stringify`, and objects are depth-copied by
`limitObjectDepth` and then pretty-printed; a stack overflow inside the copy
is caught by the surrounding try/catch, which returns the degradation string
with the `String(obj)` excerpt. -/
def formatJson (h : Heap) (stackFuel : Nat) (v : JSVal) : String :=
  match v with
  | .vnull => "null"
  | .vbool true => "true"
  | .vbool false => "false"
  | .vnum n => toString n
  | .vstr s => "\"" ++ s ++ "\""
  | .vref i =>
    match limitObjectDepth h stackFuel (.vref i) with
    | some t => stringifyTree t
    | none =>
      "[Error formatting JSON: Maximum call stack size exceeded] " ++
        jsToString h (.vref i)

/-- The reference values held by a heap object. -/
def objVals : HObj → List JSVal
  | .hobj fs => fs.map fun p => p.2
  | .harr xs => xs
  | .hdate => []

/-- Direct reference: object `a` holds `vref b` among its field or item
values. -/
def refersTo (h : Heap) (a b : Nat) : Prop :=
  ∃ o, h.objs[a]? = some o ∧ JSVal.vref b ∈ objVals o

/-- A cycle in the reference graph is reachable from `root` — the claim's
"object graph that references itself". -/
def cyclicFrom (h : Heap) (root : Nat) : Prop :=
  ∃ c, Relation.ReflTransGen (refersTo h) root c ∧
    Relation.TransGen (refersTo h) c c

/-- The self-referencing object of the repository's own regression test:
`const circular = \x7b name: "Circular" \x7d; circular.self = circular`. -/
def cycHeap : Heap :=
  ⟨[.hobj [("name", .vstr "Circular"), ("self", .vref 0)]]⟩

/-! ### Theorems -/

theorem nonTerminalData_append (l : List ChunkMeta) (c : ChunkMeta) :
    nonTerminalData (l ++ [c]) =
      nonTerminalData l ++ (if c.size = some 0 then [] else c.data) := by
  simp only [nonTerminalData, List.filter_append, List.map_append, List.flatten_append]
  by_cases h : c.size = some 0 <;> simp [h]

theorem decodeLoop_body_concat (buf : List Char) :
    ∀ (fuel : Nat) (pos : Int) (body : List Char) (chunks : List ChunkMeta)
      (r : DecodeResult),
      decodeLoop buf fuel pos body chunks = some (Except.ok r) →
      body = nonTerminalData chunks →
      r.body = nonTerminalData r.chunks := by
  intro fuel
  induction fuel with
  | zero =>
    intro pos body chunks r h
    simp [decodeLoop] at h
  | succ n ih =>
    intro pos body chunks r h hinv
    rw [decodeLoop] at h
    split at h
    · split at h
      · simp at h
      · rename_i crlfPos _
        split at h
        · -- NaN-size branch: the loop returns with the accumulated body
          simp only [Option.some.injEq, Except.ok.injEq] at h
          subst h
          simp [nonTerminalData_append, hinv]
        · rename_i m hm
          split at h
          · -- terminating chunk
            simp only [Option.some.injEq, Except.ok.injEq] at h
            subst h
            simp [nonTerminalData_append, hinv]
          · split at h
            · simp at h
            · -- data chunk consumed, recurse
              rename_i hne _
              refine ih _ _ _ r h ?_
              rw [nonTerminalData_append, ← hinv]
              simp [hne]
    · simp only [Option.some.injEq, Except.ok.injEq] at h
      subst h
      exact hinv

/-- C1: on the literal input `"5\r\nHello\r\n7\r\n World!\r\n0\r\n\r\n"`,
`decodeChunkedResponse` produces the body `"Hello World!"` and exactly three
chunk records with sizes 5, 7 and 0; and for every input on which the decoder
returns a result, the body is the concatenation of all non-terminal chunk
payloads in their order of appearance. -/
theorem decodeChunked_concat_c1 :
    ((decodeChunkedResponse chunkedSample).map (Except.map fun r =>
        (r.body, r.chunks.map fun c => c.size)) =
      some (Except.ok ("Hello World!".data, [some 5, some 7, some 0]))) ∧
    ∀ (s : List Char) (r : DecodeResult),
      decodeChunkedResponse s = some (Except.ok r) →
      r.body = nonTerminalData r.chunks := by
  constructor
  · rfl
  · intro s r h
    exact decodeLoop_body_concat s _ 0 [] [] r h rfl

/-- Witness for C1: the concatenation law instantiated on the literal
sample input. -/
theorem decodeChunked_concat_c1_witness :
    chunkedSampleDecoded.body = nonTerminalData chunkedSampleDecoded.chunks :=
  decodeChunked_concat_c1.2 chunkedSample chunkedSampleDecoded rfl

/-- C2: the literal input `"5Hello\r\n0\r\n\r\n"` raises a structural decode
error rather than returning a result; and, in general, one step of the decode
loop raises the "missing chunk size delimiter" error whenever no CRLF follows
the current position, and the "incomplete chunk data" error whenever the
declared data region plus its trailing CRLF overruns the buffer. -/
theorem decodeChunked_framing_error_c2 :
    (decodeChunkedResponse chunkedBadSample =
      some (Except.error "Invalid chunked encoding: incomplete chunk data")) ∧
    (∀ (buf : List Char) (fuel : Nat) (pos : Int) (body : List Char)
        (chunks : List ChunkMeta),
      pos < (buf.length : Int) →
      findCRLF buf pos.toNat = none →
      decodeLoop buf (fuel + 1) pos body chunks =
        some (Except.error "Invalid chunked encoding: missing chunk size delimiter")) ∧
    (∀ (buf : List Char) (fuel : Nat) (pos : Int) (body : List Char)
        (chunks : List ChunkMeta) (crlfPos : Nat) (n : Int),
      pos < (buf.length : Int) →
      findCRLF buf pos.toNat = some crlfPos →
      parseIntHex (chunkSizeHexAt buf pos crlfPos) = some n →
      n ≠ 0 →
      (crlfPos : Int) + 2 + n + 2 > (buf.length : Int) →
      decodeLoop buf (fuel + 1) pos body chunks =
        some (Except.error "Invalid chunked encoding: incomplete chunk data")) := by
  refine ⟨rfl, ?_, ?_⟩
  · intro buf fuel pos body chunks h1 h2
    rw [decodeLoop, if_pos h1, h2]
  · intro buf fuel pos body chunks crlfPos n h1 h2 h3 h4 h5
    rw [decodeLoop, if_pos h1, h2]
    simp only [h3, if_neg h4]
    rw [if_pos (by push_cast; omega)]

/-- Witness for C2: both general error branches discharged on concrete
buffers ("5" has no CRLF at all; the bad sample overruns). -/
theorem decodeChunked_framing_error_c2_witness :
    decodeLoop "5".data 1 0 [] [] =
      some (Except.error "Invalid chunked encoding: missing chunk size delimiter") ∧
    decodeLoop chunkedBadSample 1 0 [] [] =
      some (Except.error "Invalid chunked encoding: incomplete chunk data") :=
  ⟨decodeChunked_framing_error_c2.2.1 "5".data 0 0 [] [] (by decide) rfl,
   decodeChunked_framing_error_c2.2.2 chunkedBadSample 0 0 [] [] 6 5 (by decide)
     rfl rfl (by decide) (by decide)⟩

/-- C10: whenever the current chunk-size line parses to `NaN` (no leading
hexadecimal digit after sign/prefix stripping), the decode loop raises no
error: the overrun guard compares false for `NaN`, the loop terminates, and
the call returns normally with exactly the body accumulated so far, untouched
trailers, and a final chunk record whose size is `NaN` — in particular no
terminal size-0 record. -/
theorem decodeChunked_nan_silent_c10 :
    ∀ (buf : List Char) (fuel : Nat) (pos : Int) (body : List Char)
      (chunks : List ChunkMeta) (crlfPos : Nat),
      pos < (buf.length : Int) →
      findCRLF buf pos.toNat = some crlfPos →
      parseIntHex (chunkSizeHexAt buf pos crlfPos) = none →
      decodeLoop buf (fuel + 1) pos body chunks =
        some (Except.ok
          ⟨body, [],
            chunks ++
              [⟨pos, chunkSizeHexAt buf pos crlfPos, none, crlfPos + 2, [], none⟩]⟩) := by
  intro buf fuel pos body chunks crlfPos h1 h2 h3
  rw [decodeLoop, if_pos h1, h2]
  simp only [h3]

/-- Witness for C10: a size line `"zz"` makes the decoder stop silently. -/
theorem decodeChunked_nan_silent_c10_witness :
    decodeLoop "zz\r\n".data 1 0 [] [] =
      some (Except.ok ⟨[], [], [⟨0, ['z', 'z'], none, 4, [], none⟩]⟩) :=
  decodeChunked_nan_silent_c10 "zz\r\n".data 0 0 [] [] 2 (by decide) rfl rfl

/-- C7 counterexample: the claim's case-insensitive name matching fails on
the code — a header spelled `TRANSFER-ENCODING` with value `chunked` is a
chunked transfer-encoding header under the claim's reading, yet
`isChunkedResponse` returns `false` because only the exact spellings
`transfer-encoding` and `Transfer-Encoding` are consulted. -/
theorem isChunked_c7_counterexample :
    isChunkedResponse (some [("TRANSFER-ENCODING", HVal.str "chunked")]) = false ∧
    isChunkedSpec (some [("TRANSFER-ENCODING", HVal.str "chunked")]) = true := by
  exact ⟨rfl, rfl⟩

/-- C7 amended: `isChunkedResponse` returns `false` for `null`/`undefined`
headers and for headers containing neither of the exact spellings
`transfer-encoding` / `Transfer-Encoding` (names are NOT matched
case-insensitively); for a single header under either exact spelling with a
truthy value, it returns true iff the stringified value, lowercased,
contains `'chunked'` as a substring (token boundaries are not required). -/
theorem isChunked_amended_c7 :
    isChunkedResponse none = false ∧
    (∀ h : List (String × HVal),
      (∀ p ∈ h, p.1 ≠ "transfer-encoding" ∧ p.1 ≠ "Transfer-Encoding") →
      isChunkedResponse (some h) = false) ∧
    (∀ (name : String) (v : HVal),
      (name = "transfer-encoding" ∨ name = "Transfer-Encoding") →
      truthy v = true →
      isChunkedResponse (some [(name, v)]) =
        hasSubstr (toLowerL (hvalToString v).data) "chunked".data) := by
  refine ⟨rfl, ?_, ?_⟩
  · intro h hp
    have h1 : List.find? (fun p => p.1 == "transfer-encoding") h = none := by
      rw [List.find?_eq_none]
      intro x hx
      simpa using (hp x hx).1
    have h2 : List.find? (fun p => p.1 == "Transfer-Encoding") h = none := by
      rw [List.find?_eq_none]
      intro x hx
      simpa using (hp x hx).2
    simp [isChunkedResponse, jsLookup, h1, h2, jsOr]
    rfl
  · intro name v hname hv
    rcases hname with h | h <;> subst h <;>
      simp [isChunkedResponse, jsLookup, jsOr, List.find?, hv]

/-- Witness for C7's amended theorem: a header under an unrelated name is
not chunked, and an exact lowercase spelling with value `"gzip, chunked"`
reduces to the substring test. -/
theorem isChunked_amended_c7_witness :
    isChunkedResponse (some [("X-Test", HVal.str "chunked")]) = false ∧
    isChunkedResponse (some [("transfer-encoding", HVal.str "gzip, chunked")]) =
      hasSubstr (toLowerL (hvalToString (HVal.str "gzip, chunked")).data)
        "chunked".data :=
  ⟨isChunked_amended_c7.2.1 [("X-Test", HVal.str "chunked")] (by decide),
   isChunked_amended_c7.2.2 "transfer-encoding" (HVal.str "gzip, chunked")
     (Or.inl rfl) rfl⟩

theorem splitChar_ne_nil (c : Char) (s : List Char) : splitChar c s ≠ [] := by
  induction s with
  | nil => simp [splitChar]
  | cons a rest ih =>
    simp only [splitChar]
    split
    · simp
    · split <;> simp

theorem splitChar_append_comma (a r : List Char) (h : ',' ∉ a) :
    splitChar ',' (a ++ ',' :: r) = a :: splitChar ',' r := by
  induction a with
  | nil => simp [splitChar]
  | cons x xs ih =>
    have hx : ¬ x = ',' := fun e => h (e ▸ List.mem_cons_self x xs)
    have hxs : ',' ∉ xs := fun m => h (List.mem_cons_of_mem x m)
    rw [List.cons_append]
    simp only [splitChar, if_neg hx, ih hxs]

theorem splitChar_cons_ne (x : Char) (s : List Char) (h : ¬ x = ',') :
    splitChar ',' (x :: s) =
      (x :: (splitChar ',' s).headD []) :: (splitChar ',' s).tail := by
  simp only [splitChar, if_neg h]
  cases hs : splitChar ',' s with
  | nil => exact absurd hs (splitChar_ne_nil ',' s)
  | cons hd tl => simp

theorem trimWS_cons_space (l : List Char) : trimWS (' ' :: l) = trimWS l := by
  have hws : isJsWS ' ' = true := rfl
  simp [trimWS, List.dropWhile_cons, hws]

theorem encName_nocomma (t : EncTok) : ',' ∉ encName t := by
  cases t <;> decide

theorem encName_clean (t : EncTok) : toLowerL (trimWS (encName t)) = encName t := by
  cases t <;> rfl

theorem parseEncodings_headerOf :
    ∀ (toks : List EncTok) (t : EncTok),
      parseEncodings (headerOf (t :: toks)) = encName t :: toks.map encName := by
  intro toks
  induction toks with
  | nil =>
    intro t
    cases t <;> decide
  | cons t' rest ih =>
    intro t
    have hH : headerOf (t :: t' :: rest) =
        encName t ++ ',' :: ' ' :: headerOf (t' :: rest) := rfl
    rw [hH]
    unfold parseEncodings
    rw [splitChar_append_comma _ _ (encName_nocomma t),
      splitChar_cons_ne ' ' _ (by decide)]
    cases hs : splitChar ',' (headerOf (t' :: rest)) with
    | nil => exact absurd hs (splitChar_ne_nil _ _)
    | cons hd tl =>
      have ih' := ih t'
      unfold parseEncodings at ih'
      rw [hs, List.map_cons] at ih'
      injection ih' with e1 e2
      simp only [List.headD_cons, List.tail_cons, List.map_cons]
      rw [encName_clean]
      have hsp : toLowerL (trimWS (' ' :: hd)) = toLowerL (trimWS hd) := by
        rw [trimWS_cons_space]
      rw [hsp, e1, e2]

theorem foldl_stages_decode (c : Codecs) :
    ∀ (m : List EncTok) (B : List Nat) (flag : Bool) (logs : List String),
      (m.map encName).foldl (applyStage c) (encodeRev c m B, flag, logs) =
        (B, flag || !m.isEmpty, logs) := by
  intro m
  induction m with
  | nil => intro B flag logs; simp [encodeRev]
  | cons t r ih =>
    intro B flag logs
    rw [List.map_cons, List.foldl_cons]
    have hstep : applyStage c (encodeRev c (t :: r) B, flag, logs) (encName t) =
        (encodeRev c r B, true, logs) := by
      cases t with
      | gzip =>
        simp only [encodeRev, encodeTok, encName, applyStage,
          if_pos (show "gzip".data = "gzip".data from rfl)]
        rw [c.gzip_rt]
        simp
      | deflate =>
        simp only [encodeRev, encodeTok, encName, applyStage,
          if_neg (show ¬ "deflate".data = "gzip".data by decide),
          if_pos (show "deflate".data = "deflate".data from rfl)]
        rw [c.deflate_rt]
        simp
      | br =>
        simp only [encodeRev, encodeTok, encName, applyStage,
          if_neg (show ¬ "br".data = "gzip".data by decide),
          if_neg (show ¬ "br".data = "deflate".data by decide),
          if_pos (show "br".data = "br".data from rfl)]
        rw [c.br_rt]
        simp
    rw [hstep, ih]
    simp

theorem encodeRev_append (c : Codecs) (m : List EncTok) (t : EncTok)
    (B : List Nat) :
    encodeRev c (m ++ [t]) B = encodeRev c m (encodeTok c t B) := by
  induction m with
  | nil => rfl
  | cons x xs ih => simp [encodeRev, ih]

theorem encodeChain_eq_rev (c : Codecs) :
    ∀ (toks : List EncTok) (B : List Nat),
      encodeChain c toks B = encodeRev c toks.reverse B := by
  intro toks
  induction toks with
  | nil => intro B; rfl
  | cons t r ih =>
    intro B
    have h1 : encodeChain c (t :: r) B = encodeChain c r (encodeTok c t B) := rfl
    rw [h1, ih, ← encodeRev_append, List.reverse_cons]

theorem encodeRev_ne_nil (c : Codecs) (m : List EncTok) (B : List Nat)
    (h : m ≠ []) : encodeRev c m B ≠ [] := by
  cases m with
  | nil => exact absurd rfl h
  | cons t r =>
    cases t with
    | gzip => exact c.gzip_ne _
    | deflate => exact c.deflate_ne _
    | br => exact c.br_ne _

theorem headerOf_ne_nil (toks : List EncTok) (h : toks ≠ []) :
    headerOf toks ≠ [] := by
  cases toks with
  | nil => exact absurd rfl h
  | cons t r =>
    cases r with
    | nil => cases t <;> decide
    | cons t' r' => cases t <;> simp [headerOf, encName]

/-- C3: decoding an encoded chain with the matching multi-valued
Content-Encoding header recovers the original bytes (the stages being decoded
in reverse application order), and a failing stage is logged and passes its
bytes through unchanged instead of aborting the chain. -/
theorem decompress_chain_c3 :
    (∀ (c : Codecs) (B : List Nat) (toks : List EncTok), toks ≠ [] →
      (decompressBytes c (encodeChain c toks B) (some (headerOf toks))).1 = B) ∧
    (∀ (c : Codecs) (enc : List Char) (bytes : List Nat) (flag : Bool)
        (logs : List String),
      stageFails c enc bytes →
      applyStage c (bytes, flag, logs) enc =
        (bytes, flag, logs ++ [stageFailLog enc])) := by
  constructor
  · intro c B toks htoks
    obtain ⟨t, r, rfl⟩ : ∃ t r, toks = t :: r := by
      cases toks with
      | nil => exact absurd rfl htoks
      | cons t r => exact ⟨t, r, rfl⟩
    have hbuf : encodeChain c (t :: r) B ≠ [] := by
      rw [encodeChain_eq_rev]
      exact encodeRev_ne_nil c _ B (by simp)
    have hhdr : headerOf (t :: r) ≠ [] := headerOf_ne_nil _ (by simp)
    have hhdrE : (headerOf (t :: r)).isEmpty = false := by
      cases hh : headerOf (t :: r) with
      | nil => exact absurd hh hhdr
      | cons a b => rfl
    unfold decompressBytes
    rw [if_neg (by simpa using hbuf)]
    dsimp only
    rw [hhdrE]
    have hrev : (encName t :: r.map encName).reverse =
        ((t :: r).reverse).map encName := by
      rw [← List.map_cons, List.map_reverse]
    have hstart : encodeChain c (t :: r) B = encodeRev c ((t :: r).reverse) B :=
      encodeChain_eq_rev c _ B
    rw [parseEncodings_headerOf r t, hrev, hstart,
      foldl_stages_decode c ((t :: r).reverse) B false []]
    have hne : ((t :: r).reverse).isEmpty = false := by simp
    rw [hne]
    simp
  · intro c enc bytes flag logs hfail
    rcases hfail with ⟨he, hd⟩ | ⟨he, hd1, hd2⟩ | ⟨he, hd⟩ <;> subst he
    · simp only [applyStage, if_pos (show "gzip".data = "gzip".data from rfl), hd,
        stageFailLog]
      simp
    · simp only [applyStage,
        if_neg (show ¬ "deflate".data = "gzip".data by decide),
        if_pos (show "deflate".data = "deflate".data from rfl), hd1, hd2,
        stageFailLog, if_neg (show ¬ "deflate".data = "gzip".data by decide)]
      simp
    · simp only [applyStage,
        if_neg (show ¬ "br".data = "gzip".data by decide),
        if_neg (show ¬ "br".data = "deflate".data by decide),
        if_pos (show "br".data = "br".data from rfl), hd, stageFailLog]
      simp

/-- Witness for C3: a two-stage gzip-then-brotli chain over the tag codecs
round-trips, and a deflate stage whose decoders both reject passes the bytes
through with a logged error. -/
theorem decompress_chain_c3_witness :
    (decompressBytes tagCodecs
        (encodeChain tagCodecs [EncTok.gzip, EncTok.br] [7, 8])
        (some (headerOf [EncTok.gzip, EncTok.br]))).1 = [7, 8] ∧
    applyStage tagCodecs ([5], false, []) "deflate".data =
      ([5], false, [stageFailLog "deflate".data]) :=
  ⟨decompress_chain_c3.1 tagCodecs [7, 8] [EncTok.gzip, EncTok.br] (by simp),
   decompress_chain_c3.2 tagCodecs "deflate".data [5] false []
     (Or.inr (Or.inl ⟨rfl, rfl, rfl⟩))⟩

/-- C5: a close on an identifier with no registered entry is a correlation
miss: `addResponse` reports it, returns no entry, and leaves the whole
formatter state — the entries array and every entry in it — exactly as it
was. -/
theorem addResponse_unknown_c5 :
    ∀ (st : HarState) (now : Nat) (rd : ResponseData),
      mapGet st.requestMap rd.requestId = none →
      addResponse st now rd =
        (st, none,
          ["No matching request found for response with ID " ++ rd.requestId]) := by
  intro st now rd h
  unfold addResponse
  rw [h]

/-- Witness for C5: closing `"ghost"` on a fresh formatter state. -/
theorem addResponse_unknown_c5_witness :
    addResponse ⟨[], [], []⟩ 7 ⟨"ghost", 200, "OK", none, none, "HTTP/1.1"⟩ =
      (⟨[], [], []⟩, none,
        ["No matching request found for response with ID " ++ "ghost"]) :=
  addResponse_unknown_c5 ⟨[], [], []⟩ 7
    ⟨"ghost", 200, "OK", none, none, "HTTP/1.1"⟩ rfl

/-- C8: of two `logRequest` calls with identical method/host/path (the key
unseen beforehand), the first is not flagged duplicate and the second is,
yet both append fully populated entries — derived headers, cookies, query
string, sizes and the status-0 placeholder response — as two separate
records. -/
theorem duplicate_request_c8 :
    ∀ (ls : LoggerState) (now1 now2 : Nat) (method host path : String)
      (h1 h2 : Option HeadersIn) (r1 r2 : String) (s1 s2 : Bool)
      (t1 t2 : String),
      ls.loggedRequests.contains (getRequestKey method host path) = false →
      (logRequest ls now1 method host path h1 r1 s1 t1).2 = false ∧
      (logRequest (logRequest ls now1 method host path h1 r1 s1 t1).1 now2
          method host path h2 r2 s2 t2).2 = true ∧
      ∃ e1 e2 : Entry,
        (logRequest (logRequest ls now1 method host path h1 r1 s1 t1).1 now2
            method host path h2 r2 s2 t2).1.har.entries =
          ls.har.entries ++ [e1, e2] ∧
        populatedEntry e1 now1 method (mkFullUrl s1 host path) h1 s1 t1 ∧
        populatedEntry e2 now2 method (mkFullUrl s2 host path) h2 s2 t2 := by
  intro ls now1 now2 method host path h1 h2 r1 r2 s1 s2 t1 t2 hkey
  have hk : getRequestKey method host path ∉ ls.loggedRequests := by
    simpa using hkey
  refine ⟨hkey, ?_, ?_⟩
  · simp [logRequest, hk]
  · refine
      ⟨(addRequest ls.har now1
          ⟨r1, method, mkFullUrl s1 host path, h1, none, "HTTP/1.1", s1, t1⟩).2,
        (addRequest ls.har now2
          ⟨r2, method, mkFullUrl s2 host path, h2, none, "HTTP/1.1", s2, t2⟩).2,
        ?_, ?_, ?_⟩
    · have h : (logRequest (logRequest ls now1 method host path h1 r1 s1 t1).1
          now2 method host path h2 r2 s2 t2).1.har.entries =
          (ls.har.entries ++
            [(addRequest ls.har now1
              ⟨r1, method, mkFullUrl s1 host path, h1, none, "HTTP/1.1", s1, t1⟩).2]) ++
          [(addRequest ls.har now2
            ⟨r2, method, mkFullUrl s2 host path, h2, none, "HTTP/1.1", s2, t2⟩).2] :=
        rfl
      rw [h, List.append_assoc]
      rfl
    · exact ⟨rfl, rfl, rfl, rfl, rfl, rfl, rfl, rfl, rfl, rfl, rfl⟩
    · exact ⟨rfl, rfl, rfl, rfl, rfl, rfl, rfl, rfl, rfl, rfl, rfl⟩

/-- Witness for C8: two opens of `GET example.com /p` on a fresh state. -/
theorem duplicate_request_c8_witness :
    (logRequest initLoggerState 1 "GET" "example.com" "/p" none "w1" false
      "http").2 = false ∧
    (logRequest (logRequest initLoggerState 1 "GET" "example.com" "/p" none
        "w1" false "http").1 2 "GET" "example.com" "/p" none "w2" false
      "http").2 = true :=
  ⟨(duplicate_request_c8 initLoggerState 1 2 "GET" "example.com" "/p" none none
      "w1" "w2" false false "http" "http" rfl).1,
   (duplicate_request_c8 initLoggerState 1 2 "GET" "example.com" "/p" none none
      "w1" "w2" false false "http" "http" rfl).2.1⟩

/-- C9 counterexample: after the first successful close of `r1` with status
200, a second close of the SAME identifier with status 404 is NOT detected as
a duplicate (its key `r1:404` differs from `r1:200`), and it overwrites the
entry's response sub-record: the recorded status changes from 200 to 404. -/
theorem close_rewrite_c9_counterexample :
    c9Close2.2 = false ∧
    (c9Close1.1.har.entries[0]?).map (fun e => e.response.status) = some 200 ∧
    (c9Close2.1.har.entries[0]?).map (fun e => e.response.status) = some 404 :=
  ⟨rfl, rfl, rfl⟩

/-- C9 amended: duplicate-close detection is keyed by the (identifier,
status) pair — a later close with an already-seen key is flagged and leaves
the whole logger state (document included) unmodified, while a close that
passes the duplicate check reapplies response data to the resolved entry
(so a later close under the same id with a DIFFERENT status overwrites the
response sub-record). -/
theorem close_dedup_c9_amended :
    (∀ (ls : LoggerState) (now : Nat) (requestId method url : String)
        (statusCode : Nat) (msg : String) (headers : Option HeadersIn),
      ls.loggedResponses.contains (getResponseKey requestId statusCode) = true →
      logResponse ls now requestId method url statusCode msg headers =
        (ls, true)) ∧
    (∀ (ls : LoggerState) (now : Nat) (requestId method url : String)
        (statusCode : Nat) (msg : String) (headers : Option HeadersIn)
        (idx : Nat) (e : Entry),
      ls.loggedResponses.contains (getResponseKey requestId statusCode) = false →
      mapGet ls.har.requestMap requestId = some idx →
      ls.har.entries[idx]? = some e →
      ((logResponse ls now requestId method url statusCode msg headers).1.har.entries[idx]?).map
          (fun e => e.response.status) = some statusCode ∧
      (logResponse ls now requestId method url statusCode msg headers).2 = false) := by
  constructor
  · intro ls now requestId method url statusCode msg headers h
    have h' : getResponseKey requestId statusCode ∈ ls.loggedResponses := by
      simpa using h
    simp [logResponse, h']
  · intro ls now requestId method url statusCode msg headers idx e hdup hmap hent
    have hd' : getResponseKey requestId statusCode ∉ ls.loggedResponses := by
      simpa using hdup
    have hlt : idx < ls.har.entries.length := by
      by_contra hge
      rw [List.getElem?_eq_none (Nat.le_of_not_lt hge)] at hent
      exact Option.noConfusion hent
    constructor
    · simp [logResponse, addResponse, hd', hmap, hent, List.getElem?_set, hlt]
    · simp [logResponse, hd']

/-- Witness for C9's amended theorem: a repeated `r1:200` close is flagged
and leaves the state unchanged; the first `r1:200` close on the opened state
sets the response status. -/
theorem close_dedup_c9_amended_witness :
    logResponse ⟨[], ["r1:200"], ⟨[], [], []⟩⟩ 5 "r1" "GET" "u" 200 "OK" none =
      (⟨[], ["r1:200"], ⟨[], [], []⟩⟩, true) ∧
    ((logResponse c9Open.1 150 "r1" "GET" "u" 200 "OK" none).1.har.entries[0]?).map
        (fun e => e.response.status) = some 200 :=
  ⟨close_dedup_c9_amended.1 ⟨[], ["r1:200"], ⟨[], [], []⟩⟩ 5 "r1" "GET" "u"
      200 "OK" none rfl,
   (close_dedup_c9_amended.2 c9Open.1 150 "r1" "GET" "u" 200 "OK" none 0
      c9Entry rfl rfl rfl).1⟩

set_option maxRecDepth 4096 in
/-- C4: parsing the literal event stream — `message_start` with id `m1` and
role `assistant`, a text `content_block_start` at index 0, text deltas `Hel`
then `lo` at index 0, and `message_stop` — reconstructs a message whose
content block 0 carries the text `"Hello"` and whose id is `"m1"`, with all
five events retained. -/
theorem sse_reconstruct_c4 :
    (parseSSEStream c4Input).2.id = some (Json.jstr "m1") ∧
    blockTextAt (parseSSEStream c4Input).2 0 = some "Hello" ∧
    (parseSSEStream c4Input).1.map (fun p => p.1) =
      ["message_start", "content_block_start", "content_block_delta",
        "content_block_delta", "message_stop"] :=
  ⟨rfl, rfl, rfl⟩

theorem mapM_eq_none {α β : Type} (f : α → Option β) (l : List α) (x : α)
    (hx : x ∈ l) (hf : f x = none) : l.mapM f = none := by
  induction l with
  | nil => cases hx
  | cons a rest ih =>
    rw [List.mapM_cons]
    rcases List.mem_cons.mp hx with h | h
    · subst h
      rw [hf]
      rfl
    · cases hfa : f a with
      | none => rfl
      | some b =>
        rw [ih h]
        rfl

theorem limitDepth_step_none (h : Heap) (fuel : Nat) (a b : Nat)
    (hab : refersTo h a b)
    (hb : limitObjectDepth h fuel (JSVal.vref b) = none) :
    limitObjectDepth h (fuel + 1) (JSVal.vref a) = none := by
  obtain ⟨o, ho, hmem⟩ := hab
  cases o with
  | hdate => cases hmem
  | harr items =>
    have hm : (items.mapM fun item =>
        match item with
        | JSVal.vref j => limitObjectDepth h fuel (JSVal.vref j)
        | prim => some (primTree prim)) = none :=
      mapM_eq_none _ _ (JSVal.vref b) hmem hb
    rw [limitObjectDepth, ho]
    dsimp only
    rw [hm]
    rfl
  | hobj fields =>
    have hmem' : JSVal.vref b ∈ fields.map (fun p => p.2) := hmem
    obtain ⟨p, hp, hpe⟩ := List.mem_map.mp hmem'
    have hm : (fields.mapM fun p =>
        match p.2 with
        | JSVal.vref j =>
          Option.map (fun t => (p.1, t)) (limitObjectDepth h fuel (JSVal.vref j))
        | _ => some (p.1, primTree p.2)) = none := by
      refine mapM_eq_none _ _ p hp ?_
      rw [hpe]
      show Option.map (fun t => (p.1, t))
        (limitObjectDepth h fuel (JSVal.vref b)) = none
      rw [hb]
      rfl
    rw [limitObjectDepth, ho]
    dsimp only
    rw [hm]
    rfl

theorem limitDepth_none_of_onCycle (h : Heap) :
    ∀ (fuel : Nat) (i : Nat), Relation.TransGen (refersTo h) i i →
      limitObjectDepth h fuel (JSVal.vref i) = none := by
  intro fuel
  induction fuel with
  | zero => intro i _; rfl
  | succ n ih =>
    intro i hcyc
    obtain ⟨j, hij, hji⟩ :
        ∃ j, refersTo h i j ∧ Relation.ReflTransGen (refersTo h) j i := by
      rcases (Relation.TransGen.head'_iff).mp hcyc with ⟨j, hj1, hj2⟩
      exact ⟨j, hj1, hj2⟩
    have hjc : Relation.TransGen (refersTo h) j j :=
      Relation.TransGen.tail' hji hij
    exact limitDepth_step_none h n i j hij (ih j hjc)

theorem limitDepth_none_of_cyclicFrom (h : Heap) (root : Nat)
    (hc : cyclicFrom h root) :
    ∀ fuel : Nat, limitObjectDepth h fuel (JSVal.vref root) = none := by
  obtain ⟨c, hrc, hcc⟩ := hc
  induction hrc using Relation.ReflTransGen.head_induction_on with
  | refl => exact fun fuel => limitDepth_none_of_onCycle h fuel c hcc
  | head hab _ ih =>
    intro fuel
    cases fuel with
    | zero => rfl
    | succ n => exact limitDepth_step_none h n _ _ hab (ih n)

set_option maxRecDepth 4096 in
/-- C6 counterexample: on the direct self-reference (the repository's own
regression-test object), the formatter does NOT return the
reference-identity sentinel: the depth-copy recurses until the stack bound
and the caught overflow yields the catch-all degradation string, which does
not contain `[Circular reference]` at all. -/
theorem formatJson_c6_counterexample :
    formatJson cycHeap 64 (JSVal.vref 0) =
      "[Error formatting JSON: Maximum call stack size exceeded] [object Object]" ∧
    hasSubstr (formatJson cycHeap 64 (JSVal.vref 0)).data
      "[Circular reference]".data = false :=
  ⟨rfl, by decide⟩

/-- C6 amended: for every object graph with a cycle reachable from the root
and EVERY stack budget, formatting neither loops past the stack bound nor
lets an exception escape — it returns the catch-all degradation string
(`[Error formatting JSON: ...]` plus the `String(obj)` excerpt): the
identity-tracking sentinel of the stringify replacer is never produced for
cyclic roots, because `limitObjectDepth` runs first and recurses unboundedly
on cycles. -/
theorem formatJson_cyclic_c6_amended :
    ∀ (h : Heap) (root : Nat) (fuel : Nat), cyclicFrom h root →
      formatJson h fuel (JSVal.vref root) =
        "[Error formatting JSON: Maximum call stack size exceeded] " ++
          jsToString h (JSVal.vref root) := by
  intro h root fuel hc
  rw [formatJson, limitDepth_none_of_cyclicFrom h root hc fuel]

/-- Witness for C6's amended theorem: the self-referencing test object. -/
theorem formatJson_cyclic_c6_amended_witness :
    formatJson cycHeap 3 (JSVal.vref 0) =
      "[Error formatting JSON: Maximum call stack size exceeded] " ++
        jsToString cycHeap (JSVal.vref 0) :=
  formatJson_cyclic_c6_amended cycHeap 0 3
    ⟨0, Relation.ReflTransGen.refl,
      Relation.TransGen.single
        ⟨.hobj [("name", .vstr "Circular"), ("self", .vref 0)], rfl, by decide⟩⟩

end TrafficLogger
